import Mathlib

/-!
Shallow embedding of the process supervisor of `app/core/process_manager.py`
(class `ProcessManager`) together with the API-level configuration deletion of
`app/api/process_manager.py`.  Python dictionaries are modelled as
insertion-ordered association lists; OS effects (spawning, signalling, file
writes, sleeps) are modelled by explicit oracle inputs and an event trace;
timestamps are abstract `Nat` ticks.
-/

namespace ProcSup

/-- Status enum `ProcessStatus` of the source. -/
inductive ProcessStatus
  | stopped
  | starting
  | running
  | stopping
  | failed
  | unknown
deriving DecidableEq, Repr

/-- Dataclass `ProcessConfig` of the source, with the source's default field
values.  `environment` is `Option` because the Python default is `None`. -/
structure ProcessConfig where
  name : String
  command : String
  directory : String
  environment : Option (List (String × String)) := none
  auto_restart : Bool := true
  max_restarts : Nat := 3
  restart_delay : Nat := 5
  log_file : Option String := none
  pid_file : Option String := none
  user : Option String := none
  priority : Int := 999
  enabled : Bool := true
deriving DecidableEq, Repr

/-- Dataclass `ProcessInfo` of the source (the per-process runtime state).
The float fields `cpu_percent`/`memory_mb` are modelled as `Nat` samples. -/
structure ProcessInfo where
  name : String
  status : ProcessStatus
  pid : Option Nat := none
  start_time : Option Nat := none
  restart_count : Nat := 0
  last_restart : Option Nat := none
  cpu_percent : Nat := 0
  memory_mb : Nat := 0
  log_file : Option String := none
deriving DecidableEq, Repr

/-- Lookup in an insertion-ordered dictionary (`d[k]` / `d.get(k)`). -/
def dictGet (d : List (String × α)) (k : String) : Option α :=
  (d.find? fun p => p.1 = k).map Prod.snd

/-- Membership test (`k in d`). -/
def dictMem (d : List (String × α)) (k : String) : Bool :=
  d.any fun p => p.1 = k

/-- Assignment `d[k] = v`: updates in place if the key exists (keeping its
position, as Python dicts do), otherwise appends. -/
def dictSet (d : List (String × α)) (k : String) (v : α) : List (String × α) :=
  if dictMem d k then d.map fun p => if p.1 = k then (k, v) else p
  else d ++ [(k, v)]

/-- Deletion `del d[k]`. -/
def dictDel (d : List (String × α)) (k : String) : List (String × α) :=
  d.filter fun p => p.1 ≠ k

/-- Observable OS-level effects emitted by the supervisor's operations. -/
inductive Event
  | spawned (name : String) (pid : Nat)
  | logOpened (path : String)
  | pidFileWrite (path : String) (pid : Nat)
  | pidFileRemove (path : String)
  | threadStarted (name : String)
  | sigTerm (pid : Nat)
  | sigKill (pid : Nat)
  | slept (seconds : Nat)
  | issuedStart (name : String)
  | issuedStop (name : String)
  | polled (name : String) (pid : Nat)
  | sampled (name : String)
deriving DecidableEq, Repr

/-- Outcome of `subprocess.Popen` (and the I/O immediately around it): either a
fresh OS pid or an exception caught by the source's `except` block. -/
inductive SpawnResult
  | ok (pid : Nat)
  | err
deriving DecidableEq, Repr

/-- Outcome of signalling a process group: `err` models `os.killpg` raising. -/
inductive KillResult
  | ok
  | err
deriving DecidableEq, Repr

/-- Oracle inputs consumed by one `stop_process` call: the kill outcome, whether
the graceful 10-second wait timed out, and whether the pid file exists. -/
structure StopOracle where
  kill : KillResult
  waitTimeout : Bool
  pidFileExists : Bool
deriving DecidableEq, Repr

/-- The mutable attributes of a `ProcessManager` instance: the four
insertion-ordered dictionaries plus the manager-wide `running` flag.  A process
handle (`subprocess.Popen` object) is identified by its pid; an entry in
`monitor_threads` records that a watchdog thread was registered for a name. -/
structure ManagerState where
  processes : List (String × ProcessConfig) := []
  process_info : List (String × ProcessInfo) := []
  process_handles : List (String × Nat) := []
  monitor_threads : List (String × Unit) := []
  running : Bool := false
deriving DecidableEq, Repr

/-- `self.monitor_interval = 5` from `__init__`. -/
def monitor_interval : Nat := 5

/-- `ProcessManager.add_process`: unconditional upsert of the config keyed by
`config.name`, and an unconditionally fresh `ProcessInfo` (status Stopped, all
other fields defaulted) for that name. -/
def add_process (m : ManagerState) (config : ProcessConfig) : ManagerState :=
  { m with
    processes := dictSet m.processes config.name config,
    process_info := dictSet m.process_info config.name
      { name := config.name, status := ProcessStatus.stopped, log_file := config.log_file } }

/-- `ProcessManager.start_process`.  Returns `none` exactly where the Python
raises an uncaught `KeyError` (`self.process_info[name]` with the name in
`processes` but not in `process_info`); otherwise `some (result, state, trace)`.
The oracle `spawn` is the outcome of the guarded launch section; `now` is the
current clock tick used for `start_time`. -/
def start_process (m : ManagerState) (name : String) (spawn : SpawnResult) (now : Nat) :
    Option (Bool × ManagerState × List Event) :=
  match dictGet m.processes name with
  | none => some (false, m, [])
  | some config =>
    match dictGet m.process_info name with
    | none => none
    | some info =>
      if config.enabled = false then some (false, m, [])
      else if info.status = ProcessStatus.running then some (true, m, [])
      else
        let infoStarting := { info with status := ProcessStatus.starting }
        let m1 := { m with process_info := dictSet m.process_info name infoStarting }
        let logEvents := match config.log_file with
          | some p => [Event.logOpened p]
          | none => []
        match spawn with
        | SpawnResult.err =>
          let infoFailed := { info with status := ProcessStatus.failed }
          let mf := { m1 with process_info := dictSet m1.process_info name infoFailed }
          some (false, mf, logEvents)
        | SpawnResult.ok pid =>
          let m2 := { m1 with process_handles := dictSet m1.process_handles name pid }
          let info2 := { info with
            status := ProcessStatus.running, pid := some pid, start_time := some now }
          let m3 := { m2 with process_info := dictSet m2.process_info name info2 }
          let pidEvents := match config.pid_file with
            | some p => [Event.pidFileWrite p pid]
            | none => []
          let m4 := { m3 with monitor_threads := dictSet m3.monitor_threads name () }
          some (true, m4,
            logEvents ++ [Event.spawned name pid] ++ pidEvents ++ [Event.threadStarted name])

/-- `ProcessManager.stop_process`.  Mirrors the source's control flow: missing
name → `False`; status ≠ Running → no-op `True`; otherwise status is set to
Stopping, the handle (if any) is signalled (SIGKILL when `force`, else SIGTERM
with escalation to SIGKILL on wait timeout) and deleted, status becomes Stopped,
and the pid file is removed when configured and present.  A raised kill
(`oracle.kill = err`) is caught by the source's `except`: the call returns
`False` with the Stopping status and the handle left in place. -/
def stop_process (m : ManagerState) (name : String) (force : Bool) (oracle : StopOracle) :
    Bool × ManagerState × List Event :=
  match dictGet m.process_info name with
  | none => (false, m, [])
  | some info =>
    if info.status ≠ ProcessStatus.running then (true, m, [])
    else
      let info1 := { info with status := ProcessStatus.stopping }
      let m1 := { m with process_info := dictSet m.process_info name info1 }
      match dictGet m1.process_handles name with
      | some pid =>
        match oracle.kill with
        | KillResult.err => (false, m1, [])
        | KillResult.ok =>
          let sigEvents :=
            if force then [Event.sigKill pid]
            else if oracle.waitTimeout then [Event.sigTerm pid, Event.sigKill pid]
            else [Event.sigTerm pid]
          let m2 := { m1 with process_handles := dictDel m1.process_handles name }
          let info2 := { info1 with status := ProcessStatus.stopped, pid := none }
          let m3 := { m2 with process_info := dictSet m2.process_info name info2 }
          match dictGet m3.processes name with
          | none => (false, m3, sigEvents)
          | some config =>
            match config.pid_file with
            | some p =>
              if oracle.pidFileExists then (true, m3, sigEvents ++ [Event.pidFileRemove p])
              else (true, m3, sigEvents)
            | none => (true, m3, sigEvents)
      | none =>
        let info2 := { info1 with status := ProcessStatus.stopped, pid := none }
        let m2 := { m1 with process_info := dictSet m1.process_info name info2 }
        match dictGet m2.processes name with
        | none => (false, m2, [])
        | some config =>
          match config.pid_file with
          | some p =>
            if oracle.pidFileExists then (true, m2, [Event.pidFileRemove p])
            else (true, m2, [])
          | none => (true, m2, [])

/-- `ProcessManager.restart_process`: graceful stop, `time.sleep(2)`, then
start; the returned flag is exactly `start_process`'s result (the stop result
is discarded by the source). -/
def restart_process (m : ManagerState) (name : String) (oracle : StopOracle)
    (spawn : SpawnResult) (now : Nat) : Option (Bool × ManagerState × List Event) :=
  let s := stop_process m name false oracle
  match start_process s.2.1 name spawn now with
  | none => none
  | some r => some (r.1, r.2.1, s.2.2 ++ [Event.slept 2] ++ r.2.2)

/-- Oracle inputs consumed by one iteration of the watchdog loop: the
`process.poll()` result (`some code` means the process has exited), the spawn
outcome used if this iteration attempts a restart, and the clock tick. -/
structure MonInput where
  poll : Option Int
  spawn : SpawnResult
  now : Nat
deriving DecidableEq, Repr

/-- One iteration of the body of `ProcessManager._monitor_process` (the source's
`config`/`info` aliases into the shared tables are modelled by re-reading the
tables).  Returns the new state, the events of the iteration, and whether the
loop continues (`false` for the source's `break`).  The catch-all case covers
states where one of the tables has no entry for `name`; it is unreachable from
the supervisor's own operations. -/
def monitor_iteration (name : String) (m : ManagerState) (inp : MonInput) :
    ManagerState × List Event × Bool :=
  match dictGet m.processes name, dictGet m.process_info name,
      dictGet m.process_handles name with
  | some config, some info, some pid =>
    match inp.poll with
    | some _code =>
      let info1 := { info with status := ProcessStatus.failed, pid := none }
      let m1 := { m with process_info := dictSet m.process_info name info1 }
      if config.auto_restart && decide (info.restart_count < config.max_restarts) then
        let info2 := { info1 with
          restart_count := info1.restart_count + 1, last_restart := some inp.now }
        let m2 := { m1 with process_info := dictSet m1.process_info name info2 }
        let evs := [Event.polled name pid, Event.slept config.restart_delay,
          Event.issuedStart name]
        match start_process m2 name inp.spawn inp.now with
        | none => (m2, evs, false)
        | some (true, m3, sevs) => (m3, evs ++ sevs, true)
        | some (false, m3, sevs) =>
          (m3, evs ++ sevs ++ [Event.sampled name, Event.slept monitor_interval], true)
      else
        (m1, [Event.polled name pid], false)
    | none =>
      (m, [Event.polled name pid, Event.sampled name, Event.slept monitor_interval], true)
  | _, _, _ => (m, [], false)

/-- The `while self.running and name in self.process_handles` loop of
`ProcessManager._monitor_process`, driven by a finite oracle stream (one
`MonInput` per iteration; an exhausted stream simply stops the unfolding). -/
def monitor_loop (name : String) : ManagerState → List MonInput → ManagerState × List Event
  | m, [] => (m, [])
  | m, inp :: rest =>
    if m.running && dictMem m.process_handles name then
      let r := monitor_iteration name m inp
      if r.2.2 then
        let r2 := monitor_loop name r.1 rest
        (r2.1, r.2.1 ++ r2.2)
      else (r.1, r.2.1)
    else (m, [])

/-- The ascending comparison `key=lambda x: x[1].priority`. -/
def priAsc (a b : String × ProcessConfig) : Prop := a.2.priority ≤ b.2.priority

/-- The comparison for `reverse=True` (descending priority). -/
def priDesc (a b : String × ProcessConfig) : Prop := b.2.priority ≤ a.2.priority

instance : DecidableRel priAsc :=
  fun a b => inferInstanceAs (Decidable (a.2.priority ≤ b.2.priority))

instance : DecidableRel priDesc :=
  fun a b => inferInstanceAs (Decidable (b.2.priority ≤ a.2.priority))

instance : IsTotal (String × ProcessConfig) priAsc :=
  ⟨fun a b => le_total a.2.priority b.2.priority⟩

instance : IsTotal (String × ProcessConfig) priDesc :=
  ⟨fun a b => le_total b.2.priority a.2.priority⟩

instance : IsTrans (String × ProcessConfig) priAsc :=
  ⟨fun _ _ _ h₁ h₂ => le_trans h₁ h₂⟩

instance : IsTrans (String × ProcessConfig) priDesc :=
  ⟨fun _ _ _ h₁ h₂ => le_trans h₂ h₁⟩

/-- `sorted(self.processes.items(), key=lambda x: x[1].priority)` — Python's
stable ascending sort, modelled by stable insertion sort. -/
def sortByPriorityAsc (l : List (String × ProcessConfig)) : List (String × ProcessConfig) :=
  l.insertionSort priAsc

/-- The same sort with `reverse=True`: stable, descending priority. -/
def sortByPriorityDesc (l : List (String × ProcessConfig)) : List (String × ProcessConfig) :=
  l.insertionSort priDesc

/-- The loop body of `ProcessManager.start_all` over the sorted snapshot:
`if config.enabled: self.start_process(name); time.sleep(2)`.  An `issuedStart`
event marks each call to `start_process`.  A `none` from `start_process`
(uncaught `KeyError`) aborts the remainder, as the exception would. -/
def start_all_go (spawn : String → SpawnResult) (now : Nat) :
    ManagerState → List (String × ProcessConfig) → ManagerState × List Event
  | m, [] => (m, [])
  | m, (name, config) :: rest =>
    if config.enabled then
      match start_process m name (spawn name) now with
      | none => (m, [])
      | some (_, m1, evs) =>
        let r := start_all_go spawn now m1 rest
        (r.1, Event.issuedStart name :: (evs ++ [Event.slept 2]) ++ r.2)
    else start_all_go spawn now m rest

/-- `ProcessManager.start_all`: sets `self.running = True`, then walks all
configurations in ascending priority order, starting the enabled ones. -/
def start_all (m : ManagerState) (spawn : String → SpawnResult) (now : Nat) :
    ManagerState × List Event :=
  start_all_go spawn now { m with running := true } (sortByPriorityAsc m.processes)

/-- The loop body of `ProcessManager.stop_all` over the sorted snapshot:
`self.stop_process(name, force)` for every entry, enabled or not. -/
def stop_all_go (oracle : String → StopOracle) (force : Bool) :
    ManagerState → List (String × ProcessConfig) → ManagerState × List Event
  | m, [] => (m, [])
  | m, (name, _) :: rest =>
    let s := stop_process m name force (oracle name)
    let r := stop_all_go oracle force s.2.1 rest
    (r.1, Event.issuedStop name :: s.2.2 ++ r.2)

/-- `ProcessManager.stop_all`: sets `self.running = False`, then walks all
configurations in descending priority order, stopping each one. -/
def stop_all (m : ManagerState) (force : Bool) (oracle : String → StopOracle) :
    ManagerState × List Event :=
  stop_all_go oracle force { m with running := false } (sortByPriorityDesc m.processes)

/-- `ProcessManager.enable_process`: sets the enabled flag when the name is
registered. -/
def enable_process (m : ManagerState) (name : String) : ManagerState :=
  match dictGet m.processes name with
  | some config =>
    { m with processes := dictSet m.processes name { config with enabled := true } }
  | none => m

/-- `ProcessManager.disable_process`: clears the enabled flag, then issues a
graceful stop. -/
def disable_process (m : ManagerState) (name : String) (oracle : StopOracle) :
    ManagerState × List Event :=
  match dictGet m.processes name with
  | some config =>
    let m1 := { m with processes := dictSet m.processes name { config with enabled := false } }
    let s := stop_process m1 name false oracle
    (s.2.1, s.2.2)
  | none => (m, [])

/-- The field-complete JSON record `asdict(config)` written by `save_config`
for one `ProcessConfig`. -/
structure ConfigRecord where
  name : String
  command : String
  directory : String
  environment : Option (List (String × String))
  auto_restart : Bool
  max_restarts : Nat
  restart_delay : Nat
  log_file : Option String
  pid_file : Option String
  user : Option String
  priority : Int
  enabled : Bool
deriving DecidableEq, Repr

/-- `dataclasses.asdict` on a `ProcessConfig`. -/
def asdict (c : ProcessConfig) : ConfigRecord :=
  { name := c.name, command := c.command, directory := c.directory,
    environment := c.environment, auto_restart := c.auto_restart,
    max_restarts := c.max_restarts, restart_delay := c.restart_delay,
    log_file := c.log_file, pid_file := c.pid_file, user := c.user,
    priority := c.priority, enabled := c.enabled }

/-- `ProcessConfig(**config_dict)` on a well-formed record. -/
def configOfDict (r : ConfigRecord) : ProcessConfig :=
  { name := r.name, command := r.command, directory := r.directory,
    environment := r.environment, auto_restart := r.auto_restart,
    max_restarts := r.max_restarts, restart_delay := r.restart_delay,
    log_file := r.log_file, pid_file := r.pid_file, user := r.user,
    priority := r.priority, enabled := r.enabled }

/-- `ProcessManager.save_config`: the JSON object written to the config file,
one field-complete record per registered name, in dictionary order. -/
def save_config (m : ManagerState) : List (String × ConfigRecord) :=
  m.processes.map fun p => (p.1, asdict p.2)

/-- One entry of the persisted config file as read back: either a record
matching the `ProcessConfig` schema, or one on which `ProcessConfig(**d)`
raises (extra/missing keys, wrong shape). -/
inductive RawEntry
  | wellFormed (record : ConfigRecord)
  | malformed
deriving DecidableEq, Repr

/-- The `for name, config_dict in config_data.items()` loop of
`ProcessManager.load_config`.  The whole loop runs inside one `try`: a
malformed entry raises, the exception is caught outside the loop, and the
remaining entries are never processed (entries already added stay). -/
def load_entries : ManagerState → List (String × RawEntry) → ManagerState
  | m, [] => m
  | m, (_, RawEntry.malformed) :: _ => m
  | m, (_, RawEntry.wellFormed r) :: rest => load_entries (add_process m (configOfDict r)) rest

/-- `ProcessManager.load_config`: `none` models an absent config file (early
return, no error); otherwise the entries are folded through `add_process`
until the first malformed one. -/
def load_config (m : ManagerState) (file : Option (List (String × RawEntry))) : ManagerState :=
  match file with
  | none => m
  | some entries => load_entries m entries

/-- `delete_process_config` of `app/api/process_manager.py`: 404 for unknown
names; otherwise a graceful `stop_process` (result ignored) followed by
deletion of both the config and the runtime state. -/
def delete_process_config (m : ManagerState) (name : String) (oracle : StopOracle) :
    Except String ManagerState :=
  if dictMem m.processes name then
    let s := stop_process m name false oracle
    Except.ok { s.2.1 with
      processes := dictDel s.2.1.processes name,
      process_info := dictDel s.2.1.process_info name }
  else Except.error ("process not found: " ++ name)

/-- The four built-in configurations registered by
`ProcessManager.load_default_configs`, parameterised by the computed project
root path. -/
def default_configs (projectRoot : String) : List ProcessConfig :=
  [{ name := "api_server",
     command := "python -m uvicorn app.main:app --host 0.0.0.0 --port 8000",
     directory := projectRoot,
     environment := some [("PYTHONPATH", projectRoot)],
     auto_restart := true,
     log_file := some "logs/api_server.log",
     pid_file := some "pids/api_server.pid",
     priority := 1 },
   { name := "celery_worker",
     command := "python -m celery -A app.celery_app worker --loglevel=info --concurrency=4 --queues=batch,download,default",
     directory := projectRoot,
     environment := some [("PYTHONPATH", projectRoot)],
     auto_restart := true,
     log_file := some "logs/celery_worker.log",
     pid_file := some "pids/celery_worker.pid",
     priority := 2 },
   { name := "celery_beat",
     command := "python -m celery -A app.celery_app beat --loglevel=info",
     directory := projectRoot,
     environment := some [("PYTHONPATH", projectRoot)],
     auto_restart := true,
     log_file := some "logs/celery_beat.log",
     pid_file := some "pids/celery_beat.pid",
     priority := 3 },
   { name := "celery_flower",
     command := "python -m celery -A app.celery_app flower --port=5555 --basic_auth=admin:admin123",
     directory := projectRoot,
     environment := some [("PYTHONPATH", projectRoot)],
     auto_restart := true,
     log_file := some "logs/celery_flower.log",
     pid_file := some "pids/celery_flower.pid",
     priority := 4,
     enabled := false }]

/-- `ProcessManager.__init__`: empty tables, `running = False`, then
`load_default_configs` registers the four built-ins. -/
def initialManager (projectRoot : String) : ManagerState :=
  (default_configs projectRoot).foldl add_process {}

/-- The names started by `start_all` / other traces, in order. -/
def issuedStarts (evs : List Event) : List String :=
  evs.filterMap fun e => match e with
    | Event.issuedStart n => some n
    | _ => none

/-- The names stopped by `stop_all`, in order. -/
def issuedStops (evs : List Event) : List String :=
  evs.filterMap fun e => match e with
    | Event.issuedStop n => some n
    | _ => none

theorem dictGet_cons (p : String × α) (d : List (String × α)) (k : String) :
    dictGet (p :: d) k = if p.1 = k then some p.2 else dictGet d k := by
  by_cases h : p.1 = k <;> simp [dictGet, List.find?_cons, h]

theorem dictMem_cons (p : String × α) (d : List (String × α)) (k : String) :
    dictMem (p :: d) k = (decide (p.1 = k) || dictMem d k) := by
  simp [dictMem]

theorem dictGet_eq_none_of_not_mem (d : List (String × α)) (k : String)
    (h : dictMem d k = false) : dictGet d k = none := by
  induction d with
  | nil => rfl
  | cons p rest ih =>
    rw [dictMem_cons] at h
    rcases Bool.or_eq_false_iff.mp h with ⟨h1, h2⟩
    rw [dictGet_cons, if_neg (by simpa using h1)]
    exact ih h2

theorem dictGet_append (d₁ d₂ : List (String × α)) (k : String) :
    dictGet (d₁ ++ d₂) k = ((dictGet d₁ k).or (dictGet d₂ k)) := by
  induction d₁ with
  | nil => simp [dictGet]
  | cons p rest ih =>
    by_cases h : p.1 = k <;>
      simp [List.cons_append, dictGet_cons, h, ih]

theorem dictGet_set_self (d : List (String × α)) (k : String) (v : α) :
    dictGet (dictSet d k v) k = some v := by
  unfold dictSet
  by_cases h : dictMem d k = true
  · rw [if_pos h]
    induction d with
    | nil => simp [dictMem] at h
    | cons p rest ih =>
      by_cases hp : p.1 = k
      · simp [List.map_cons, hp, dictGet_cons]
      · rw [dictMem_cons] at h
        simp only [hp, decide_False, Bool.false_or] at h
        simpa [List.map_cons, hp, dictGet_cons] using ih h
  · rw [if_neg h]
    rw [dictGet_append, dictGet_eq_none_of_not_mem d k (by simpa using h)]
    simp [dictGet_cons]

theorem dictGet_set_ne (d : List (String × α)) (k k' : String) (v : α) (h : k' ≠ k) :
    dictGet (dictSet d k v) k' = dictGet d k' := by
  unfold dictSet
  by_cases hm : dictMem d k = true
  · rw [if_pos hm]
    clear hm
    induction d with
    | nil => rfl
    | cons p rest ih =>
      by_cases hp : p.1 = k
      · have hpk : p.1 ≠ k' := by rw [hp]; exact fun e => h e.symm
        simp [List.map_cons, hp, dictGet_cons, hpk, Ne.symm h, ih]
      · by_cases hpk : p.1 = k' <;>
          simp [List.map_cons, hp, dictGet_cons, hpk, ih, h]
  · rw [if_neg hm, dictGet_append]
    have hz : dictGet [(k, v)] k' = none := by
      rw [dictGet_cons, if_neg fun e => h e.symm]
      rfl
    rw [hz]
    cases dictGet d k' <;> rfl

theorem dictMem_set (d : List (String × α)) (k k' : String) (v : α) :
    dictMem (dictSet d k v) k' = (decide (k = k') || dictMem d k') := by
  unfold dictSet
  by_cases hm : dictMem d k = true
  · rw [if_pos hm]
    by_cases e : k = k'
    · subst e
      simp only [decide_True, Bool.true_or]
      induction d with
      | nil => simp [dictMem] at hm
      | cons p rest ih =>
        by_cases hp : p.1 = k
        · simp [List.map_cons, hp, dictMem_cons]
        · rw [dictMem_cons] at hm
          simp only [hp, decide_False, Bool.false_or] at hm
          simpa [List.map_cons, hp, dictMem_cons] using ih hm
    · simp only [e, decide_False, Bool.false_or]
      clear hm
      induction d with
      | nil => rfl
      | cons p rest ih =>
        by_cases hp : p.1 = k
        · have : k ≠ k' := e
          simp [List.map_cons, hp, dictMem_cons, this, ih]
        · simp [List.map_cons, hp, dictMem_cons, ih]
  · rw [if_neg hm]
    by_cases e : k = k'
    · subst e
      simp [dictMem, List.any_append]
    · simp [dictMem, List.any_append, e, Ne.symm e]

theorem dictDel_cons (p : String × α) (d : List (String × α)) (k : String) :
    dictDel (p :: d) k = if p.1 = k then dictDel d k else p :: dictDel d k := by
  by_cases hp : p.1 = k <;> simp [dictDel, List.filter_cons, hp]

theorem dictGet_del_self (d : List (String × α)) (k : String) :
    dictGet (dictDel d k) k = none := by
  induction d with
  | nil => rfl
  | cons p rest ih =>
    rw [dictDel_cons]
    by_cases hp : p.1 = k
    · rw [if_pos hp]; exact ih
    · rw [if_neg hp, dictGet_cons, if_neg hp]; exact ih

theorem dictGet_del_ne (d : List (String × α)) (k k' : String) (h : k' ≠ k) :
    dictGet (dictDel d k) k' = dictGet d k' := by
  induction d with
  | nil => rfl
  | cons p rest ih =>
    rw [dictDel_cons, dictGet_cons]
    by_cases hp : p.1 = k
    · have hpk : ¬ p.1 = k' := by rw [hp]; exact fun e => h e.symm
      rw [if_pos hp, if_neg hpk]; exact ih
    · rw [if_neg hp, dictGet_cons]
      by_cases hpk : p.1 = k'
      · rw [if_pos hpk, if_pos hpk]
      · rw [if_neg hpk, if_neg hpk]; exact ih

theorem dictMem_eq_isSome (d : List (String × α)) (k : String) :
    dictMem d k = (dictGet d k).isSome := by
  induction d with
  | nil => rfl
  | cons p rest ih =>
    by_cases hp : p.1 = k <;> simp [dictMem_cons, dictGet_cons, hp, ih]

/-- Frame facts about `start_process`: it never touches the config table or the
manager-wide `running` flag, never changes any restart count, and never removes
a runtime-state key; its event trace contains no bulk-operation markers and no
sleeps. -/
theorem start_process_spec {m : ManagerState} {name : String} {spawn : SpawnResult}
    {now : Nat} {b : Bool} {m' : ManagerState} {evs : List Event}
    (h : start_process m name spawn now = some (b, m', evs)) :
    m'.processes = m.processes ∧ m'.running = m.running ∧
    (∀ k, (dictGet m'.process_info k).map ProcessInfo.restart_count
        = (dictGet m.process_info k).map ProcessInfo.restart_count) ∧
    (∀ k, dictMem m.process_info k = true → dictMem m'.process_info k = true) ∧
    issuedStarts evs = [] ∧ issuedStops evs = [] ∧ (∀ s, Event.slept s ∉ evs) := by
  unfold start_process at h
  cases hc : dictGet m.processes name with
  | none =>
    rw [hc] at h
    dsimp only at h
    simp only [Option.some.injEq, Prod.mk.injEq] at h
    obtain ⟨-, hm, he⟩ := h
    subst hm; subst he
    exact ⟨rfl, rfl, fun k => rfl, fun k hk => hk, rfl, rfl, fun s hs => by simp at hs⟩
  | some config =>
    rw [hc] at h
    dsimp only at h
    cases hi : dictGet m.process_info name with
    | none => rw [hi] at h; dsimp only at h; exact absurd h (by simp)
    | some info =>
      rw [hi] at h
      dsimp only at h
      by_cases hen : config.enabled = false
      · rw [if_pos hen] at h
        simp only [Option.some.injEq, Prod.mk.injEq] at h
        obtain ⟨-, hm, he⟩ := h
        subst hm; subst he
        exact ⟨rfl, rfl, fun k => rfl, fun k hk => hk, rfl, rfl, fun s hs => by simp at hs⟩
      · rw [if_neg hen] at h
        by_cases hru : info.status = ProcessStatus.running
        · rw [if_pos hru] at h
          simp only [Option.some.injEq, Prod.mk.injEq] at h
          obtain ⟨-, hm, he⟩ := h
          subst hm; subst he
          exact ⟨rfl, rfl, fun k => rfl, fun k hk => hk, rfl, rfl, fun s hs => by simp at hs⟩
        · rw [if_neg hru] at h
          cases spawn with
          | err =>
            dsimp only at h
            simp only [Option.some.injEq, Prod.mk.injEq] at h
            obtain ⟨-, hm, he⟩ := h
            subst hm; subst he
            refine ⟨rfl, rfl, fun k => ?_, fun k hk => ?_, ?_, ?_, fun s hs => ?_⟩
            · by_cases hk : k = name
              · subst hk
                rw [dictGet_set_self, hi]
                rfl
              · rw [dictGet_set_ne _ _ _ _ hk, dictGet_set_ne _ _ _ _ hk]
            · show dictMem (dictSet (dictSet _ _ _) _ _) k = true
              rw [dictMem_set, dictMem_set]
              simp [hk]
            · cases hl : config.log_file <;> simp [hl, issuedStarts]
            · cases hl : config.log_file <;> simp [hl, issuedStops]
            · cases hl : config.log_file <;> simp [hl] at hs
          | ok pid =>
            dsimp only at h
            simp only [Option.some.injEq, Prod.mk.injEq] at h
            obtain ⟨-, hm, he⟩ := h
            subst hm; subst he
            refine ⟨rfl, rfl, fun k => ?_, fun k hk => ?_, ?_, ?_, fun s hs => ?_⟩
            · by_cases hk : k = name
              · subst hk
                rw [dictGet_set_self, hi]
                rfl
              · rw [dictGet_set_ne _ _ _ _ hk, dictGet_set_ne _ _ _ _ hk]
            · show dictMem (dictSet (dictSet _ _ _) _ _) k = true
              rw [dictMem_set, dictMem_set]
              simp [hk]
            · cases hl : config.log_file <;> cases hp : config.pid_file <;>
                simp [hl, hp, issuedStarts]
            · cases hl : config.log_file <;> cases hp : config.pid_file <;>
                simp [hl, hp, issuedStops]
            · cases hl : config.log_file <;> cases hp : config.pid_file <;>
                simp [hl, hp] at hs

theorem count_preserved_set₁ {d : List (String × ProcessInfo)} {name : String}
    {info v : ProcessInfo} (hi : dictGet d name = some info)
    (hv : v.restart_count = info.restart_count) (k : String) :
    (dictGet (dictSet d name v) k).map ProcessInfo.restart_count
      = (dictGet d k).map ProcessInfo.restart_count := by
  by_cases hk : k = name
  · subst hk; rw [dictGet_set_self, hi]; simp [hv]
  · rw [dictGet_set_ne _ _ _ _ hk]

theorem count_preserved_set₂ {d : List (String × ProcessInfo)} {name : String}
    {info v w : ProcessInfo} (hi : dictGet d name = some info)
    (hw : w.restart_count = info.restart_count) (k : String) :
    (dictGet (dictSet (dictSet d name v) name w) k).map ProcessInfo.restart_count
      = (dictGet d k).map ProcessInfo.restart_count := by
  by_cases hk : k = name
  · subst hk; rw [dictGet_set_self, hi]; simp [hw]
  · rw [dictGet_set_ne _ _ _ _ hk, dictGet_set_ne _ _ _ _ hk]

theorem mem_preserved_set₁ {d : List (String × α)} {name : String} {v : α}
    (k : String) (hk : dictMem d k = true) : dictMem (dictSet d name v) k = true := by
  rw [dictMem_set]; simp [hk]

theorem mem_preserved_set₂ {d : List (String × α)} {name : String} {v w : α}
    (k : String) (hk : dictMem d k = true) :
    dictMem (dictSet (dictSet d name v) name w) k = true := by
  rw [dictMem_set, dictMem_set]; simp [hk]

/-- Frame facts about `stop_process`: it never touches the config table or the
manager-wide `running` flag, never changes any restart count, and never removes
a runtime-state key; its event trace contains no bulk-operation markers and no
sleeps. -/
theorem stop_process_spec {m : ManagerState} {name : String} {force : Bool}
    {oracle : StopOracle} {b : Bool} {m' : ManagerState} {evs : List Event}
    (h : stop_process m name force oracle = (b, m', evs)) :
    m'.processes = m.processes ∧ m'.running = m.running ∧
    (∀ k, (dictGet m'.process_info k).map ProcessInfo.restart_count
        = (dictGet m.process_info k).map ProcessInfo.restart_count) ∧
    (∀ k, dictMem m.process_info k = true → dictMem m'.process_info k = true) ∧
    issuedStarts evs = [] ∧ issuedStops evs = [] ∧ (∀ s, Event.slept s ∉ evs) := by
  unfold stop_process at h
  cases hi : dictGet m.process_info name with
  | none =>
    rw [hi] at h
    dsimp only at h
    simp only [Prod.mk.injEq] at h
    obtain ⟨-, hm, he⟩ := h
    subst hm; subst he
    exact ⟨rfl, rfl, fun k => rfl, fun k hk => hk, rfl, rfl, fun s hs => by simp at hs⟩
  | some info =>
    rw [hi] at h
    dsimp only at h
    by_cases hru : info.status ≠ ProcessStatus.running
    · rw [if_pos hru] at h
      simp only [Prod.mk.injEq] at h
      obtain ⟨-, hm, he⟩ := h
      subst hm; subst he
      exact ⟨rfl, rfl, fun k => rfl, fun k hk => hk, rfl, rfl, fun s hs => by simp at hs⟩
    · rw [if_neg hru] at h
      cases hh : dictGet m.process_handles name with
      | some pid =>
        rw [hh] at h
        cases hk : oracle.kill with
        | err =>
          rw [hk] at h
          dsimp only at h
          simp only [Prod.mk.injEq] at h
          obtain ⟨-, hm, he⟩ := h
          subst hm; subst he
          refine ⟨rfl, rfl, fun k => count_preserved_set₁ hi (by rfl) k,
            fun k hk => mem_preserved_set₁ k hk, rfl, rfl, fun s hs => by simp at hs⟩
        | ok =>
          rw [hk] at h
          dsimp only at h
          cases hcf : dictGet m.processes name with
          | none =>
            rw [hcf] at h
            simp only [Prod.mk.injEq] at h
            obtain ⟨-, hm, he⟩ := h
            subst hm; subst he
            refine ⟨rfl, rfl, fun k => count_preserved_set₂ hi (by rfl) k,
              fun k hk => mem_preserved_set₂ k hk, ?_, ?_, fun s hs => ?_⟩
            · cases force <;> cases hw : oracle.waitTimeout <;>
                simp [hw, issuedStarts]
            · cases force <;> cases hw : oracle.waitTimeout <;>
                simp [hw, issuedStops]
            · cases force <;> cases hw : oracle.waitTimeout <;>
                simp [hw] at hs
          | some config =>
            rw [hcf] at h
            dsimp only at h
            cases hpf : config.pid_file with
            | some p =>
              rw [hpf] at h
              dsimp only at h
              cases hex : oracle.pidFileExists with
              | true =>
                rw [hex, if_pos rfl] at h
                simp only [Prod.mk.injEq] at h
                obtain ⟨-, hm, he⟩ := h
                subst hm; subst he
                refine ⟨rfl, rfl, fun k => count_preserved_set₂ hi (by rfl) k,
                  fun k hk => mem_preserved_set₂ k hk, ?_, ?_, fun s hs => ?_⟩
                · cases force <;> cases hw : oracle.waitTimeout <;>
                    simp [hw, issuedStarts]
                · cases force <;> cases hw : oracle.waitTimeout <;>
                    simp [hw, issuedStops]
                · cases force <;> cases hw : oracle.waitTimeout <;>
                    simp [hw] at hs
              | false =>
                rw [hex] at h
                simp only [Bool.false_eq_true, if_false, Prod.mk.injEq] at h
                obtain ⟨-, hm, he⟩ := h
                subst hm; subst he
                refine ⟨rfl, rfl, fun k => count_preserved_set₂ hi (by rfl) k,
                  fun k hk => mem_preserved_set₂ k hk, ?_, ?_, fun s hs => ?_⟩
                · cases force <;> cases hw : oracle.waitTimeout <;>
                    simp [hw, issuedStarts]
                · cases force <;> cases hw : oracle.waitTimeout <;>
                    simp [hw, issuedStops]
                · cases force <;> cases hw : oracle.waitTimeout <;>
                    simp [hw] at hs
            | none =>
              rw [hpf] at h
              simp only [Prod.mk.injEq] at h
              obtain ⟨-, hm, he⟩ := h
              subst hm; subst he
              refine ⟨rfl, rfl, fun k => count_preserved_set₂ hi (by rfl) k,
                fun k hk => mem_preserved_set₂ k hk, ?_, ?_, fun s hs => ?_⟩
              · cases force <;> cases hw : oracle.waitTimeout <;>
                  simp [hw, issuedStarts]
              · cases force <;> cases hw : oracle.waitTimeout <;>
                  simp [hw, issuedStops]
              · cases force <;> cases hw : oracle.waitTimeout <;>
                  simp [hw] at hs
      | none =>
        rw [hh] at h
        dsimp only at h
        cases hcf : dictGet m.processes name with
        | none =>
          rw [hcf] at h
          simp only [Prod.mk.injEq] at h
          obtain ⟨-, hm, he⟩ := h
          subst hm; subst he
          exact ⟨rfl, rfl, fun k => count_preserved_set₂ hi (by rfl) k,
            fun k hk => mem_preserved_set₂ k hk, rfl, rfl, fun s hs => by simp at hs⟩
        | some config =>
          rw [hcf] at h
          dsimp only at h
          cases hpf : config.pid_file with
          | some p =>
            rw [hpf] at h
            dsimp only at h
            cases hex : oracle.pidFileExists with
            | true =>
              rw [hex, if_pos rfl] at h
              simp only [Prod.mk.injEq] at h
              obtain ⟨-, hm, he⟩ := h
              subst hm; subst he
              exact ⟨rfl, rfl, fun k => count_preserved_set₂ hi (by rfl) k,
                fun k hk => mem_preserved_set₂ k hk, rfl, rfl, fun s hs => by simp at hs⟩
            | false =>
              rw [hex] at h
              simp only [Bool.false_eq_true, if_false, Prod.mk.injEq] at h
              obtain ⟨-, hm, he⟩ := h
              subst hm; subst he
              exact ⟨rfl, rfl, fun k => count_preserved_set₂ hi (by rfl) k,
                fun k hk => mem_preserved_set₂ k hk, rfl, rfl, fun s hs => by simp at hs⟩
          | none =>
            rw [hpf] at h
            simp only [Prod.mk.injEq] at h
            obtain ⟨-, hm, he⟩ := h
            subst hm; subst he
            exact ⟨rfl, rfl, fun k => count_preserved_set₂ hi (by rfl) k,
              fun k hk => mem_preserved_set₂ k hk, rfl, rfl, fun s hs => by simp at hs⟩

/-- Well-formedness maintained by every supervisor operation: every registered
config name also has a runtime-state entry (`add_process` creates both). -/
def SyncKeys (m : ManagerState) : Prop :=
  ∀ k, dictMem m.processes k = true → dictMem m.process_info k = true

/-- The restart-count invariant: no runtime state records more restarts than
its configuration's `max_restarts`. -/
def CountBounded (m : ManagerState) : Prop :=
  ∀ k config info, dictGet m.processes k = some config →
    dictGet m.process_info k = some info → info.restart_count ≤ config.max_restarts

/-- Checks that between any two `issuedStart` markers of a trace a 2-second
sleep occurs; the flag records whether such a sleep was seen since the last
marker (initially `true`). -/
def delayBetweenStarts : List Event → Bool → Bool
  | [], _ => true
  | Event.issuedStart _ :: rest, sleptSince => sleptSince && delayBetweenStarts rest false
  | Event.slept 2 :: rest, _ => delayBetweenStarts rest true
  | _ :: rest, sleptSince => delayBetweenStarts rest sleptSince

theorem start_process_ne_none {m : ManagerState} {name : String} {spawn : SpawnResult}
    {now : Nat} (hs : SyncKeys m) : start_process m name spawn now ≠ none := by
  unfold start_process
  cases hc : dictGet m.processes name with
  | none => simp
  | some config =>
    cases hi : dictGet m.process_info name with
    | none =>
      have h1 : dictMem m.processes name = true := by
        rw [dictMem_eq_isSome, hc]; rfl
      have h2 := hs name h1
      rw [dictMem_eq_isSome, hi] at h2
      cases h2
    | some info =>
      by_cases hen : config.enabled = false
      · simp [hen]
      · by_cases hru : info.status = ProcessStatus.running
        · simp [hen, hru]
        · cases spawn <;> simp [hen, hru]

theorem start_process_syncKeys {m : ManagerState} {name : String} {spawn : SpawnResult}
    {now : Nat} {b : Bool} {m' : ManagerState} {evs : List Event}
    (h : start_process m name spawn now = some (b, m', evs)) (hs : SyncKeys m) :
    SyncKeys m' := by
  obtain ⟨hp, -, -, hmem, -⟩ := start_process_spec h
  intro k hk
  rw [hp] at hk
  exact hmem k (hs k hk)

theorem stop_process_syncKeys {m : ManagerState} {name : String} {force : Bool}
    {oracle : StopOracle} (hs : SyncKeys m) :
    SyncKeys (stop_process m name force oracle).2.1 := by
  rcases hsp : stop_process m name force oracle with ⟨b, m', evs⟩
  obtain ⟨hp, -, -, hmem, -⟩ := stop_process_spec hsp
  intro k hk
  rw [hp] at hk
  exact hmem k (hs k hk)

/-- Frame facts about one watchdog iteration: the config table and the
`running` flag are untouched, and a restart count changes only by the
guarded increment of the monitored process itself. -/
theorem monitor_iteration_spec {name : String} {m : ManagerState} {inp : MonInput}
    {m' : ManagerState} {evs : List Event} {c : Bool}
    (h : monitor_iteration name m inp = (m', evs, c)) :
    m'.processes = m.processes ∧ m'.running = m.running ∧
    (∀ k, (dictGet m'.process_info k).map ProcessInfo.restart_count
          = (dictGet m.process_info k).map ProcessInfo.restart_count
      ∨ (k = name ∧ ∃ config info,
          dictGet m.processes k = some config ∧ dictGet m.process_info k = some info ∧
          info.restart_count < config.max_restarts ∧
          (dictGet m'.process_info k).map ProcessInfo.restart_count
            = some (info.restart_count + 1))) := by
  unfold monitor_iteration at h
  cases hc : dictGet m.processes name with
  | none =>
    rw [hc] at h
    dsimp only at h
    simp only [Prod.mk.injEq] at h
    obtain ⟨hm, -, -⟩ := h
    subst hm
    exact ⟨rfl, rfl, fun k => Or.inl rfl⟩
  | some config =>
    rw [hc] at h
    cases hi : dictGet m.process_info name with
    | none =>
      rw [hi] at h
      dsimp only at h
      simp only [Prod.mk.injEq] at h
      obtain ⟨hm, -, -⟩ := h
      subst hm
      exact ⟨rfl, rfl, fun k => Or.inl rfl⟩
    | some info =>
      rw [hi] at h
      cases hh : dictGet m.process_handles name with
      | none =>
        rw [hh] at h
        dsimp only at h
        simp only [Prod.mk.injEq] at h
        obtain ⟨hm, -, -⟩ := h
        subst hm
        exact ⟨rfl, rfl, fun k => Or.inl rfl⟩
      | some pid =>
        rw [hh] at h
        dsimp only at h
        cases hpo : inp.poll with
        | none =>
          rw [hpo] at h
          dsimp only at h
          simp only [Prod.mk.injEq] at h
          obtain ⟨hm, -, -⟩ := h
          subst hm
          exact ⟨rfl, rfl, fun k => Or.inl rfl⟩
        | some code =>
          rw [hpo] at h
          dsimp only at h
          cases hg : (config.auto_restart && decide (info.restart_count < config.max_restarts)) with
          | false =>
            rw [hg] at h
            simp only [Bool.false_eq_true, if_false, Prod.mk.injEq] at h
            obtain ⟨hm, -, -⟩ := h
            subst hm
            exact ⟨rfl, rfl, fun k => Or.inl (count_preserved_set₁ hi (by rfl) k)⟩
          | true =>
            rw [hg] at h
            simp only [if_true, Prod.mk.injEq] at h
            have hlt : info.restart_count < config.max_restarts := by
              have hand := (Bool.and_eq_true _ _).mp hg
              exact of_decide_eq_true hand.2
            split at h
            · rename_i hsp
              simp only [Prod.mk.injEq] at h
              obtain ⟨hm, -, -⟩ := h
              subst hm
              refine ⟨rfl, rfl, fun k => ?_⟩
              by_cases hk : k = name
              · subst hk
                refine Or.inr ⟨rfl, config, info, hc, hi, hlt, ?_⟩
                dsimp only
                rw [dictGet_set_self]
                rfl
              · refine Or.inl ?_
                dsimp only
                rw [dictGet_set_ne _ _ _ _ hk, dictGet_set_ne _ _ _ _ hk]
            · rename_i m3 sevs hsp
              obtain ⟨hp3, hr3, hcnt3, -⟩ := start_process_spec hsp
              simp only [Prod.mk.injEq] at h
              obtain ⟨hm, -, -⟩ := h
              subst hm
              refine ⟨by rw [hp3], by rw [hr3], fun k => ?_⟩
              by_cases hk : k = name
              · subst hk
                refine Or.inr ⟨rfl, config, info, hc, hi, hlt, ?_⟩
                rw [hcnt3 k]
                dsimp only
                rw [dictGet_set_self]
                rfl
              · refine Or.inl ?_
                rw [hcnt3 k]
                dsimp only
                rw [dictGet_set_ne _ _ _ _ hk, dictGet_set_ne _ _ _ _ hk]
            · rename_i m3 sevs hsp
              obtain ⟨hp3, hr3, hcnt3, -⟩ := start_process_spec hsp
              simp only [Prod.mk.injEq] at h
              obtain ⟨hm, -, -⟩ := h
              subst hm
              refine ⟨by rw [hp3], by rw [hr3], fun k => ?_⟩
              by_cases hk : k = name
              · subst hk
                refine Or.inr ⟨rfl, config, info, hc, hi, hlt, ?_⟩
                rw [hcnt3 k]
                dsimp only
                rw [dictGet_set_self]
                rfl
              · refine Or.inl ?_
                rw [hcnt3 k]
                dsimp only
                rw [dictGet_set_ne _ _ _ _ hk, dictGet_set_ne _ _ _ _ hk]

theorem monitor_iteration_bounded {name : String} {m : ManagerState} {inp : MonInput}
    {m' : ManagerState} {evs : List Event} {c : Bool}
    (h : monitor_iteration name m inp = (m', evs, c)) (hb : CountBounded m) :
    CountBounded m' := by
  obtain ⟨hp, -, hcnt⟩ := monitor_iteration_spec h
  intro k config info hc hi
  rw [hp] at hc
  rcases hcnt k with hl | ⟨-, config', info', hc', hi', hlt, heq⟩
  · rw [hi] at hl
    cases hg : dictGet m.process_info k with
    | none => rw [hg] at hl; cases hl
    | some infoOld =>
      rw [hg] at hl
      have : info.restart_count = infoOld.restart_count := by
        simpa using hl
      rw [this]
      exact hb k config infoOld hc hg
  · rw [hi] at heq
    have hcc : config' = config := by
      rw [hc] at hc'
      exact (Option.some.injEq _ _ ▸ hc').symm
    have : info.restart_count = info'.restart_count + 1 := by
      simpa using heq
    rw [this]
    subst hcc
    exact hlt

theorem monitor_loop_bounded (name : String) :
    ∀ (oracle : List MonInput) (m : ManagerState), CountBounded m →
      CountBounded (monitor_loop name m oracle).1 := by
  intro oracle
  induction oracle with
  | nil => intro m hb; exact hb
  | cons inp rest ih =>
    intro m hb
    simp only [monitor_loop]
    by_cases hg : (m.running && dictMem m.process_handles name) = true
    · rw [if_pos hg]
      rcases hit : monitor_iteration name m inp with ⟨m1, evs1, c1⟩
      have hb1 := monitor_iteration_bounded hit hb
      cases c1 with
      | true =>
        dsimp only
        rw [if_pos rfl]
        exact ih m1 hb1
      | false =>
        dsimp only
        rw [if_neg (by simp)]
        exact hb1
    · rw [if_neg hg]
      exact hb

theorem monitor_loop_not_running {name : String} {m : ManagerState}
    (hr : m.running = false) : ∀ oracle, monitor_loop name m oracle = (m, []) := by
  intro oracle
  cases oracle with
  | nil => rfl
  | cons inp rest =>
    simp only [monitor_loop]
    rw [hr]
    simp

theorem start_process_isSome_of_infoMem {m : ManagerState} {name : String}
    {spawn : SpawnResult} {now : Nat}
    (hi : (dictGet m.process_info name).isSome = true) :
    start_process m name spawn now ≠ none := by
  unfold start_process
  cases hc : dictGet m.processes name with
  | none => simp
  | some config =>
    cases hig : dictGet m.process_info name with
    | none => rw [hig] at hi; cases hi
    | some info =>
      by_cases hen : config.enabled = false
      · simp [hen]
      · by_cases hru : info.status = ProcessStatus.running
        · simp [hen, hru]
        · cases spawn <;> simp [hen, hru]

/-- C1 counterexample configuration: `max_restarts = 1`, `auto_restart` true. -/
def c1cfg : ProcessConfig :=
  { name := "a", command := "run a", directory := "/d", max_restarts := 1 }

/-- C1 counterexample state: the process is Running and monitored. -/
def c1m : ManagerState :=
  { processes := [("a", c1cfg)],
    process_info := [("a", { name := "a", status := ProcessStatus.running, pid := some 41 })],
    process_handles := [("a", 41)],
    monitor_threads := [("a", ())],
    running := true }

/-- C1 (corrected): the restart count is bounded by `max_restarts` throughout
any watchdog run; when the watchdog observes an unexpected exit with the
restart count no longer below `max_restarts`, the status becomes Failed, no
restart is issued, and the loop exits permanently (its whole remaining trace is
the single poll, whatever oracle inputs remain); but an unexpected exit with
the count still below the limit increments the count and keeps the loop alive,
so Failed-with-no-watchdog is reached only on exit number `max_restarts + 1`,
not after `max_restarts` exits as the claim states. -/
theorem C1_restart_limit_amended :
    (∀ (name : String) (oracle : List MonInput) (m : ManagerState), CountBounded m →
      CountBounded (monitor_loop name m oracle).1)
  ∧ (∀ (name : String) (m : ManagerState) (inp : MonInput) (rest : List MonInput)
      (config : ProcessConfig) (info : ProcessInfo) (pid : Nat),
      m.running = true →
      dictGet m.processes name = some config →
      dictGet m.process_info name = some info →
      dictGet m.process_handles name = some pid →
      inp.poll.isSome = true →
      config.auto_restart = true →
      config.max_restarts ≤ info.restart_count →
      (monitor_loop name m (inp :: rest)).2 = [Event.polled name pid] ∧
      issuedStarts (monitor_loop name m (inp :: rest)).2 = [] ∧
      (dictGet (monitor_loop name m (inp :: rest)).1.process_info name).map ProcessInfo.status
        = some ProcessStatus.failed ∧
      (dictGet (monitor_loop name m (inp :: rest)).1.process_info name).map
          ProcessInfo.restart_count = some info.restart_count)
  ∧ (∀ (name : String) (m : ManagerState) (inp : MonInput)
      (config : ProcessConfig) (info : ProcessInfo) (pid : Nat)
      (m' : ManagerState) (evs : List Event) (cflag : Bool),
      dictGet m.processes name = some config →
      dictGet m.process_info name = some info →
      dictGet m.process_handles name = some pid →
      inp.poll.isSome = true →
      config.auto_restart = true →
      info.restart_count < config.max_restarts →
      monitor_iteration name m inp = (m', evs, cflag) →
      cflag = true ∧
      (dictGet m'.process_info name).map ProcessInfo.restart_count
        = some (info.restart_count + 1)) := by
  refine ⟨fun name oracle m hb => monitor_loop_bounded name oracle m hb, ?_, ?_⟩
  · intro name m inp rest config info pid hrun hc hi hh hpoll hauto hmax
    obtain ⟨code, hcode⟩ := Option.isSome_iff_exists.mp hpoll
    have hguard : (m.running && dictMem m.process_handles name) = true := by
      rw [hrun, dictMem_eq_isSome, hh]; rfl
    have hdec : decide (info.restart_count < config.max_restarts) = false :=
      decide_eq_false (Nat.not_lt.mpr hmax)
    have hiter : monitor_iteration name m inp
        = ({ m with process_info := dictSet m.process_info name { info with status := ProcessStatus.failed, pid := none } }, [Event.polled name pid], false) := by
      unfold monitor_iteration
      rw [hc, hi, hh]
      dsimp only
      rw [hcode]
      dsimp only
      rw [hauto, hdec]
      rfl
    simp only [monitor_loop]
    rw [if_pos hguard, hiter]
    rw [if_neg Bool.false_ne_true]
    refine ⟨rfl, rfl, ?_, ?_⟩
    · rw [dictGet_set_self]; rfl
    · rw [dictGet_set_self]; rfl
  · intro name m inp config info pid m' evs cflag hc hi hh hpoll hauto hlt hit
    obtain ⟨code, hcode⟩ := Option.isSome_iff_exists.mp hpoll
    unfold monitor_iteration at hit
    rw [hc, hi, hh] at hit
    dsimp only at hit
    rw [hcode] at hit
    dsimp only at hit
    rw [hauto, decide_eq_true hlt] at hit
    simp only [Bool.and_self, if_true] at hit
    split at hit
    · rename_i hsp
      exact absurd hsp (start_process_isSome_of_infoMem (by
        dsimp only
        rw [dictGet_set_self]
        rfl))
    · rename_i m3 sevs hsp
      obtain ⟨-, -, hcnt3, -⟩ := start_process_spec hsp
      simp only [Prod.mk.injEq] at hit
      obtain ⟨hm, -, hcf⟩ := hit
      subst hm
      refine ⟨hcf.symm, ?_⟩
      rw [hcnt3 name]
      dsimp only
      rw [dictGet_set_self]
      rfl
    · rename_i m3 sevs hsp
      obtain ⟨-, -, hcnt3, -⟩ := start_process_spec hsp
      simp only [Prod.mk.injEq] at hit
      obtain ⟨hm, -, hcf⟩ := hit
      subst hm
      refine ⟨hcf.symm, ?_⟩
      rw [hcnt3 name]
      dsimp only
      rw [dictGet_set_self]
      rfl

/-- C1 counterexample: with `max_restarts = 1`, after exactly one unexpected
exit the process has been restarted — its status is Running, its restart count
equals 1, a fresh watchdog thread was registered, and the loop signalled that
it keeps running — whereas the claim asserts the state is Failed with no
active watchdog after one (= N) exit. -/
theorem C1_counterexample :
    c1cfg.max_restarts = 1 ∧ c1cfg.auto_restart = true ∧
    (dictGet (monitor_loop "a" c1m [⟨some 1, SpawnResult.ok 42, 7⟩]).1.process_info "a").map
        ProcessInfo.status = some ProcessStatus.running ∧
    (dictGet (monitor_loop "a" c1m [⟨some 1, SpawnResult.ok 42, 7⟩]).1.process_info "a").map
        ProcessInfo.restart_count = some 1 ∧
    (monitor_iteration "a" c1m ⟨some 1, SpawnResult.ok 42, 7⟩).2.2 = true := by
  decide

/-- C1 witness state: Running process whose restart budget is exhausted. -/
def w1m : ManagerState :=
  { processes := [("a", c1cfg)],
    process_info := [("a", { name := "a", status := ProcessStatus.running, pid := some 61, restart_count := 1 })],
    process_handles := [("a", 61)],
    monitor_threads := [("a", ())],
    running := true }

/-- C1 witness: the amended theorem applied at a concrete exhausted state. -/
theorem C1_witness :
    (monitor_loop "a" w1m [⟨some 9, SpawnResult.ok 77, 3⟩]).2 = [Event.polled "a" 61] ∧
    issuedStarts (monitor_loop "a" w1m [⟨some 9, SpawnResult.ok 77, 3⟩]).2 = [] ∧
    (dictGet (monitor_loop "a" w1m [⟨some 9, SpawnResult.ok 77, 3⟩]).1.process_info "a").map
        ProcessInfo.status = some ProcessStatus.failed ∧
    (dictGet (monitor_loop "a" w1m [⟨some 9, SpawnResult.ok 77, 3⟩]).1.process_info "a").map
        ProcessInfo.restart_count = some 1 :=
  C1_restart_limit_amended.2.1 "a" w1m ⟨some 9, SpawnResult.ok 77, 3⟩ [] c1cfg
    { name := "a", status := ProcessStatus.running, pid := some 61, restart_count := 1 } 61
    (by decide) (by decide) (by decide) (by decide) (by decide) (by decide) (by decide)

/-- C2 counterexample configuration. -/
def c2cfg : ProcessConfig := { name := "a", command := "run a", directory := "/d" }

/-- C2 counterexample state: registered, enabled, Stopped, with a restart
count of 2 left over from earlier automatic restarts. -/
def c2m : ManagerState :=
  { processes := [("a", c2cfg)],
    process_info := [("a", { name := "a", status := ProcessStatus.stopped, restart_count := 2 })] }

/-- C2 counterexample: a direct external `start_process` call succeeds but the
restart count stays at 2 — it is not reset to 0 as the claim asserts. -/
theorem C2_counterexample :
    (start_process c2m "a" (SpawnResult.ok 99) 10).map
        (fun r => (r.1, (dictGet r.2.1.process_info "a").map ProcessInfo.restart_count))
      = some (true, some 2) := by
  decide

/-- C2 (corrected): no start ever resets a restart count — `start_process` and
`stop_process` preserve every process's restart count verbatim; the count is 0
only because `add_process` installs a fresh runtime state, and a watchdog
iteration can only keep a count or increment it by one, never reset it. -/
theorem C2_restart_count_amended :
    (∀ (m : ManagerState) (name : String) (spawn : SpawnResult) (now : Nat)
        (b : Bool) (m' : ManagerState) (evs : List Event),
      start_process m name spawn now = some (b, m', evs) →
      ∀ k, (dictGet m'.process_info k).map ProcessInfo.restart_count
          = (dictGet m.process_info k).map ProcessInfo.restart_count)
  ∧ (∀ (m : ManagerState) (name : String) (force : Bool) (oracle : StopOracle) (k : String),
      (dictGet (stop_process m name force oracle).2.1.process_info k).map
          ProcessInfo.restart_count
        = (dictGet m.process_info k).map ProcessInfo.restart_count)
  ∧ (∀ (m : ManagerState) (config : ProcessConfig),
      (dictGet (add_process m config).process_info config.name).map ProcessInfo.restart_count
        = some 0)
  ∧ (∀ (name : String) (m : ManagerState) (inp : MonInput) (m' : ManagerState)
        (evs : List Event) (cflag : Bool),
      monitor_iteration name m inp = (m', evs, cflag) →
      ∀ k, (dictGet m'.process_info k).map ProcessInfo.restart_count
            = (dictGet m.process_info k).map ProcessInfo.restart_count
        ∨ (dictGet m'.process_info k).map ProcessInfo.restart_count
            = (dictGet m.process_info k).map (fun i => i.restart_count + 1)) := by
  refine ⟨?_, ?_, ?_, ?_⟩
  · intro m name spawn now b m' evs h k
    exact (start_process_spec h).2.2.1 k
  · intro m name force oracle k
    rcases hsp : stop_process m name force oracle with ⟨b, m', evs⟩
    exact (stop_process_spec hsp).2.2.1 k
  · intro m config
    dsimp only [add_process]
    rw [dictGet_set_self]
    rfl
  · intro name m inp m' evs cflag h k
    rcases (monitor_iteration_spec h).2.2 k with hl | ⟨-, config, info, hcc, hii, hlt, heq⟩
    · exact Or.inl hl
    · refine Or.inr ?_
      rw [heq, hii]
      rfl

/-- The state produced by the C2 witness start call. -/
def c2start : ManagerState :=
  { processes := [("a", c2cfg)],
    process_info := [("a", { name := "a", status := ProcessStatus.running, pid := some 99, start_time := some 10, restart_count := 2 })],
    process_handles := [("a", 99)],
    monitor_threads := [("a", ())],
    running := false }

/-- C2 witness: the amended theorem applied to the concrete successful start. -/
theorem C2_witness :
    (dictGet c2start.process_info "a").map ProcessInfo.restart_count
      = (dictGet c2m.process_info "a").map ProcessInfo.restart_count :=
  C2_restart_count_amended.1 c2m "a" (SpawnResult.ok 99) 10 true c2start
    [Event.spawned "a" 99, Event.threadStarted "a"] (by decide) "a"

theorem dictMem_map_set (d : List (String × α)) (k : String) (v : α) :
    dictMem (d.map fun p => if p.1 = k then (k, v) else p) k = dictMem d k := by
  induction d with
  | nil => rfl
  | cons p rest ih =>
    by_cases hp : p.1 = k <;> simp [dictMem_cons, hp, ih]

theorem dictSet_map_idem (d : List (String × α)) (k : String) (v : α) :
    ((d.map fun p => if p.1 = k then (k, v) else p).map fun p => if p.1 = k then (k, v) else p)
      = d.map fun p => if p.1 = k then (k, v) else p := by
  induction d with
  | nil => rfl
  | cons p rest ih =>
    by_cases hp : p.1 = k <;> simp [hp, ih]

theorem map_set_of_not_mem (d : List (String × α)) (k : String) (v : α)
    (h : dictMem d k = false) : (d.map fun p => if p.1 = k then (k, v) else p) = d := by
  induction d with
  | nil => rfl
  | cons p rest ih =>
    rw [dictMem_cons] at h
    rcases Bool.or_eq_false_iff.mp h with ⟨h1, h2⟩
    simp only [List.map_cons, if_neg (by simpa using h1), ih h2]

theorem dictSet_idem (d : List (String × α)) (k : String) (v : α) :
    dictSet (dictSet d k v) k v = dictSet d k v := by
  by_cases hm : dictMem d k = true
  · have h1 : dictSet d k v = d.map fun p => if p.1 = k then (k, v) else p := by
      unfold dictSet; rw [if_pos hm]
    rw [h1]
    unfold dictSet
    rw [if_pos (by rw [dictMem_map_set]; exact hm)]
    exact dictSet_map_idem d k v
  · have hm0 : dictMem d k = false := by simpa using hm
    have h1 : dictSet d k v = d ++ [(k, v)] := by
      unfold dictSet; rw [if_neg hm]
    rw [h1]
    unfold dictSet
    rw [if_pos (by simp [dictMem, List.any_append]), List.map_append,
      map_set_of_not_mem d k v hm0]
    simp

/-- C6 counterexample config used to re-register the running process. -/
def c6cfg : ProcessConfig := { name := "a", command := "run a v2", directory := "/d" }

/-- C6 counterexample state: "a" is registered and currently Running with a
nonzero restart count. -/
def c6m : ManagerState :=
  { processes := [("a", { name := "a", command := "run a", directory := "/d" })],
    process_info := [("a", { name := "a", status := ProcessStatus.running, pid := some 9, restart_count := 2 })],
    process_handles := [("a", 9)] }

/-- C6 counterexample: re-registering the name of a Running process replaces
its runtime state with a fresh one (status Stopped, restart count 0, no pid),
contradicting the claim that the existing state is not reset. -/
theorem C6_counterexample :
    (dictGet c6m.process_info "a").map ProcessInfo.status = some ProcessStatus.running ∧
    (dictGet c6m.process_info "a").map ProcessInfo.restart_count = some 2 ∧
    dictGet (add_process c6m c6cfg).process_info "a"
      = some { name := "a", status := ProcessStatus.stopped, log_file := none } := by
  decide

/-- C6 (corrected): `add_process` is an idempotent upsert keyed by the config
name that installs a fresh runtime state (status Stopped, restart count 0, no
pid) on EVERY registration — new names and re-registrations alike, even while
the process is Running — and leaves every other name's config and state
untouched. -/
theorem C6_add_process_amended :
    (∀ (m : ManagerState) (config : ProcessConfig),
      dictGet (add_process m config).processes config.name = some config)
  ∧ (∀ (m : ManagerState) (config : ProcessConfig),
      dictGet (add_process m config).process_info config.name
        = some { name := config.name, status := ProcessStatus.stopped, log_file := config.log_file })
  ∧ (∀ (m : ManagerState) (config : ProcessConfig),
      add_process (add_process m config) config = add_process m config)
  ∧ (∀ (m : ManagerState) (config : ProcessConfig) (k : String), k ≠ config.name →
      dictGet (add_process m config).processes k = dictGet m.processes k ∧
      dictGet (add_process m config).process_info k = dictGet m.process_info k) := by
  refine ⟨?_, ?_, ?_, ?_⟩
  · intro m config
    dsimp only [add_process]
    exact dictGet_set_self _ _ _
  · intro m config
    dsimp only [add_process]
    exact dictGet_set_self _ _ _
  · intro m config
    dsimp only [add_process]
    rw [dictSet_idem, dictSet_idem]
  · intro m config k hk
    dsimp only [add_process]
    exact ⟨dictGet_set_ne _ _ _ _ hk, dictGet_set_ne _ _ _ _ hk⟩

/-- C6 witness: the amended theorem's frame clause at a concrete other key. -/
theorem C6_witness :
    dictGet (add_process c6m c6cfg).processes "b" = dictGet c6m.processes "b" ∧
    dictGet (add_process c6m c6cfg).process_info "b" = dictGet c6m.process_info "b" :=
  C6_add_process_amended.2.2.2 c6m c6cfg "b" (by decide)

/-- C10 (confirmed): starting a registered, enabled process whose status is
already Running returns success while leaving the manager state entirely
unchanged and emitting no events — no second OS process is spawned, no pid
file is written, and no second watchdog thread is started. -/
theorem C10_start_idempotent (m : ManagerState) (name : String) (config : ProcessConfig)
    (info : ProcessInfo) (spawn : SpawnResult) (now : Nat)
    (hc : dictGet m.processes name = some config)
    (hen : config.enabled = true)
    (hi : dictGet m.process_info name = some info)
    (hst : info.status = ProcessStatus.running) :
    start_process m name spawn now = some (true, m, []) := by
  unfold start_process
  rw [hc]
  dsimp only
  rw [hi]
  dsimp only
  simp [hen, hst]

/-- C10 witness config. -/
def w10cfg : ProcessConfig := { name := "a", command := "run", directory := "/d" }

/-- C10 witness runtime state (Running). -/
def w10info : ProcessInfo := { name := "a", status := ProcessStatus.running, pid := some 5 }

/-- C10 witness state. -/
def w10m : ManagerState :=
  { processes := [("a", w10cfg)],
    process_info := [("a", w10info)],
    process_handles := [("a", 5)] }

/-- C10 witness: the theorem applied at a concrete Running process. -/
theorem C10_witness : start_process w10m "a" (SpawnResult.ok 9) 3 = some (true, w10m, []) :=
  C10_start_idempotent w10m "a" w10cfg w10info (SpawnResult.ok 9) 3
    (by decide) (by decide) (by decide) (by decide)

/-- C8 counterexample state: "a" registered and Running. -/
def c8m : ManagerState :=
  { processes := [("a", { name := "a", command := "run", directory := "/d" })],
    process_info := [("a", { name := "a", status := ProcessStatus.running, pid := some 50 })],
    process_handles := [("a", 50)] }

/-- C8 counterexample: deleting the configuration of a Running process does
not fail with a ProcessStillRunning error — the endpoint stops the process
itself and then removes both tables, returning success. -/
theorem C8_counterexample :
    (dictGet c8m.process_info "a").map ProcessInfo.status = some ProcessStatus.running ∧
    (delete_process_config c8m "a" ⟨KillResult.ok, false, false⟩).toOption
      = some { processes := [], process_info := [], process_handles := [], monitor_threads := [], running := false } := by
  decide

/-- C8 (corrected): deleting a known configuration always succeeds — the
endpoint first issues a graceful stop whose result it ignores, then removes
both the ProcessConfig and the ProcessRuntimeState (leaving other names'
configs untouched); the only failure is an unknown name.  No
ProcessStillRunning error exists on this path. -/
theorem C8_delete_amended :
    (∀ (m : ManagerState) (name : String) (oracle : StopOracle),
      dictMem m.processes name = true →
      ∃ m', delete_process_config m name oracle = Except.ok m' ∧
        dictGet m'.processes name = none ∧ dictGet m'.process_info name = none ∧
        (∀ k, k ≠ name → dictGet m'.processes k = dictGet m.processes k))
  ∧ (∀ (m : ManagerState) (name : String) (oracle : StopOracle),
      dictMem m.processes name = false →
      delete_process_config m name oracle = Except.error ("process not found: " ++ name)) := by
  constructor
  · intro m name oracle hmem
    rcases hsp : stop_process m name false oracle with ⟨b, ms, evs⟩
    obtain ⟨hp, -, -⟩ := stop_process_spec hsp
    unfold delete_process_config
    rw [if_pos hmem, hsp]
    dsimp only
    refine ⟨_, rfl, ?_, ?_, ?_⟩
    · exact dictGet_del_self _ _
    · exact dictGet_del_self _ _
    · intro k hk
      rw [dictGet_del_ne _ _ _ hk, hp]
  · intro m name oracle hmem
    unfold delete_process_config
    rw [if_neg (by simp [hmem])]

/-- C8 witness: the amended theorem applied at the concrete Running state. -/
theorem C8_witness :
    ∃ m', delete_process_config c8m "a" ⟨KillResult.ok, false, false⟩ = Except.ok m' ∧
      dictGet m'.processes "a" = none ∧ dictGet m'.process_info "a" = none ∧
      (∀ k, k ≠ "a" → dictGet m'.processes k = dictGet c8m.processes k) :=
  C8_delete_amended.1 c8m "a" ⟨KillResult.ok, false, false⟩ (by decide)

/-- C9 counterexample state: "a" Running and tracked. -/
def c9m : ManagerState :=
  { processes := [("a", { name := "a", command := "run", directory := "/d" })],
    process_info := [("a", { name := "a", status := ProcessStatus.running, pid := some 50 })],
    process_handles := [("a", 50)] }

/-- C9 counterexample: the graceful stop step fails (the kill raises and
`stop_process` returns `False`), yet `restart_process` returns `True` because
it only forwards the start step's result — contradicting the claim that a
failing stop step makes the restart report failure. -/
theorem C9_counterexample :
    (stop_process c9m "a" false ⟨KillResult.err, false, false⟩).1 = false ∧
    (restart_process c9m "a" ⟨KillResult.err, false, false⟩ (SpawnResult.ok 51) 3).map Prod.fst
      = some true := by
  decide

/-- C9 (corrected): `restart_process` performs a graceful stop, a fixed
2-second pause, then a start, but returns only the start step's result — the
stop step's success/failure is discarded, so its outcome is that of
`start_process` on the post-stop state. -/
theorem C9_restart_amended :
    ∀ (m : ManagerState) (name : String) (oracle : StopOracle) (spawn : SpawnResult) (now : Nat),
      (restart_process m name oracle spawn now).map Prod.fst
        = (start_process (stop_process m name false oracle).2.1 name spawn now).map Prod.fst
      ∧ (∀ (b : Bool) (m' : ManagerState) (evs : List Event),
          restart_process m name oracle spawn now = some (b, m', evs) →
          Event.slept 2 ∈ evs) := by
  intro m name oracle spawn now
  cases hst : start_process (stop_process m name false oracle).2.1 name spawn now with
  | none =>
    constructor
    · unfold restart_process
      dsimp only
      rw [hst]
    · intro b m' evs h
      unfold restart_process at h
      dsimp only at h
      rw [hst] at h
      exact absurd h (by simp)
  | some r =>
    constructor
    · unfold restart_process
      dsimp only
      rw [hst]
      rfl
    · intro b m' evs h
      unfold restart_process at h
      dsimp only at h
      rw [hst] at h
      dsimp only at h
      simp only [Option.some.injEq, Prod.mk.injEq] at h
      obtain ⟨-, -, he⟩ := h
      subst he
      simp

/-- C9 witness: the amended theorem's pause clause at the concrete failing
stop followed by a successful start. -/
theorem C9_witness :
    Event.slept 2 ∈ [Event.slept 2, Event.spawned "a" 51, Event.threadStarted "a"] :=
  (C9_restart_amended c9m "a" ⟨KillResult.err, false, false⟩ (SpawnResult.ok 51) 3).2 true
    { processes := [("a", { name := "a", command := "run", directory := "/d" })],
      process_info := [("a", { name := "a", status := ProcessStatus.running, pid := some 51, start_time := some 3 })],
      process_handles := [("a", 51)],
      monitor_threads := [("a", ())],
      running := false }
    [Event.slept 2, Event.spawned "a" 51, Event.threadStarted "a"] (by decide)

theorem foldl_add_running (cs : List ProcessConfig) :
    ∀ s : ManagerState, (cs.foldl add_process s).running = s.running := by
  induction cs with
  | nil => intro s; rfl
  | cons c rest ih =>
    intro s
    rw [List.foldl_cons]
    exact ih (add_process s c)

theorem start_all_go_running (spawn : String → SpawnResult) (now : Nat) :
    ∀ (l : List (String × ProcessConfig)) (m : ManagerState),
      (start_all_go spawn now m l).1.running = m.running := by
  intro l
  induction l with
  | nil => intro m; rfl
  | cons p rest ih =>
    intro m
    rcases p with ⟨name, config⟩
    simp only [start_all_go]
    by_cases he : config.enabled = true
    · rw [if_pos he]
      rcases hst : start_process m name (spawn name) now with - | r
      · rfl
      · obtain ⟨b, m1, evs⟩ := r
        dsimp only
        rw [ih m1, (start_process_spec hst).2.1]
    · rw [if_neg he]
      exact ih m

theorem stop_all_go_running (oracle : String → StopOracle) (force : Bool) :
    ∀ (l : List (String × ProcessConfig)) (m : ManagerState),
      (stop_all_go oracle force m l).1.running = m.running := by
  intro l
  induction l with
  | nil => intro m; rfl
  | cons p rest ih =>
    intro m
    rcases p with ⟨name, config⟩
    simp only [stop_all_go]
    rcases hsp : stop_process m name force (oracle name) with ⟨b, m1, evs⟩
    dsimp only
    rw [ih m1, (stop_process_spec hsp).2.1]

theorem load_entries_running :
    ∀ (es : List (String × RawEntry)) (m : ManagerState),
      (load_entries m es).running = m.running := by
  intro es
  induction es with
  | nil => intro m; rfl
  | cons p rest ih =>
    intro m
    rcases p with ⟨n, e⟩
    cases e with
    | malformed => rfl
    | wellFormed r => exact ih (add_process m (configOfDict r))

theorem monitor_loop_running (name : String) :
    ∀ (oracle : List MonInput) (m : ManagerState),
      (monitor_loop name m oracle).1.running = m.running := by
  intro oracle
  induction oracle with
  | nil => intro m; rfl
  | cons inp rest ih =>
    intro m
    simp only [monitor_loop]
    by_cases hg : (m.running && dictMem m.process_handles name) = true
    · rw [if_pos hg]
      rcases hit : monitor_iteration name m inp with ⟨m1, evs1, c1⟩
      have hr1 := (monitor_iteration_spec hit).2.1
      cases c1 with
      | true =>
        dsimp only
        rw [if_pos rfl]
        dsimp only
        rw [ih m1, hr1]
      | false =>
        dsimp only
        rw [if_neg (by simp)]
        exact hr1
    · rw [if_neg hg]

/-- C3 (confirmed): the watchdog loop's body runs only while the manager-wide
`running` flag is true; the flag is false at construction, is set (to true)
only by `start_all` and cleared only by `stop_all` while every other operation
preserves it; hence a watchdog spawned by a bare `start_process` before any
`start_all` exits immediately with no events (no poll, no sampling, no
restart), and after a single `stop_all` every watchdog loop exits on its next
check, including loops of processes whose stop failed. -/
theorem C3_running_flag_gates_watchdog :
    (∀ root, (initialManager root).running = false)
  ∧ (∀ m spawn now, (start_all m spawn now).1.running = true)
  ∧ (∀ m force oracle, (stop_all m force oracle).1.running = false)
  ∧ (∀ (m : ManagerState) (name : String) (spawn : SpawnResult) (now : Nat)
        (b : Bool) (m' : ManagerState) (evs : List Event),
      start_process m name spawn now = some (b, m', evs) → m'.running = m.running)
  ∧ (∀ m name force oracle, (stop_process m name force oracle).2.1.running = m.running)
  ∧ (∀ (m : ManagerState) (name : String) (oracle : StopOracle) (spawn : SpawnResult)
        (now : Nat) (b : Bool) (m' : ManagerState) (evs : List Event),
      restart_process m name oracle spawn now = some (b, m', evs) → m'.running = m.running)
  ∧ (∀ m config, (add_process m config).running = m.running)
  ∧ (∀ m name, (enable_process m name).running = m.running)
  ∧ (∀ m name oracle, (disable_process m name oracle).1.running = m.running)
  ∧ (∀ (m : ManagerState) (name : String) (oracle : StopOracle) (m' : ManagerState),
      delete_process_config m name oracle = Except.ok m' → m'.running = m.running)
  ∧ (∀ m file, (load_config m file).running = m.running)
  ∧ (∀ name oracle m, (monitor_loop name m oracle).1.running = m.running)
  ∧ (∀ (name : String) (m : ManagerState) (oracle : List MonInput),
      m.running = false → monitor_loop name m oracle = (m, []))
  ∧ (∀ (m : ManagerState) (force : Bool) (oracle : String → StopOracle)
        (name : String) (rest : List MonInput),
      monitor_loop name (stop_all m force oracle).1 rest = ((stop_all m force oracle).1, [])) := by
  refine ⟨?_, ?_, ?_, ?_, ?_, ?_, ?_, ?_, ?_, ?_, ?_, ?_, ?_, ?_⟩
  · intro root
    exact foldl_add_running (default_configs root) {}
  · intro m spawn now
    exact start_all_go_running spawn now (sortByPriorityAsc m.processes)
      { m with running := true }
  · intro m force oracle
    exact stop_all_go_running oracle force (sortByPriorityDesc m.processes)
      { m with running := false }
  · intro m name spawn now b m' evs h
    exact (start_process_spec h).2.1
  · intro m name force oracle
    rcases hsp : stop_process m name force oracle with ⟨b, m', evs⟩
    exact (stop_process_spec hsp).2.1
  · intro m name oracle spawn now b m' evs h
    unfold restart_process at h
    dsimp only at h
    rcases hst : start_process (stop_process m name false oracle).2.1 name spawn now with - | r
    · rw [hst] at h
      exact absurd h (by simp)
    · rw [hst] at h
      obtain ⟨b0, m0, evs0⟩ := r
      simp only [Option.some.injEq, Prod.mk.injEq] at h
      obtain ⟨-, hm, -⟩ := h
      subst hm
      rcases hstop : stop_process m name false oracle with ⟨bs, ms, evss⟩
      rw [hstop] at hst
      rw [(start_process_spec hst).2.1, (stop_process_spec hstop).2.1]
  · intro m config
    rfl
  · intro m name
    unfold enable_process
    cases dictGet m.processes name <;> rfl
  · intro m name oracle
    unfold disable_process
    cases hc : dictGet m.processes name with
    | none => rfl
    | some config =>
      dsimp only
      rcases hsp : stop_process { m with processes := dictSet m.processes name { config with enabled := false } } name false oracle with ⟨b, m', evs⟩
      dsimp only
      exact (stop_process_spec hsp).2.1
  · intro m name oracle m' h
    unfold delete_process_config at h
    by_cases hmem : dictMem m.processes name = true
    · rw [if_pos hmem] at h
      dsimp only at h
      rcases hsp : stop_process m name false oracle with ⟨bs, ms, evss⟩
      rw [hsp] at h
      simp only [Except.ok.injEq] at h
      subst h
      exact (stop_process_spec hsp).2.1
    · rw [if_neg hmem] at h
      cases h
  · intro m file
    cases file with
    | none => rfl
    | some entries => exact load_entries_running entries m
  · intro name oracle m
    exact monitor_loop_running name oracle m
  · intro name m oracle hr
    exact monitor_loop_not_running hr oracle
  · intro m force oracle name rest
    refine monitor_loop_not_running ?_ rest
    exact stop_all_go_running oracle force (sortByPriorityDesc m.processes)
      { m with running := false }

/-- C3 witness state: a single process started individually; the manager-wide
flag was never set by a `start_all`. -/
def w3m : ManagerState :=
  { processes := [("a", { name := "a", command := "run", directory := "/d" })],
    process_info := [("a", { name := "a", status := ProcessStatus.running, pid := some 8 })],
    process_handles := [("a", 8)],
    monitor_threads := [("a", ())],
    running := false }

/-- C3 witness: with the flag still false, a watchdog loop for the running
process exits immediately — no state change and no events. -/
theorem C3_witness :
    monitor_loop "a" w3m [⟨some 0, SpawnResult.ok 9, 1⟩, ⟨none, SpawnResult.ok 10, 2⟩]
      = (w3m, []) :=
  C3_running_flag_gates_watchdog.2.2.2.2.2.2.2.2.2.2.2.2.1 "a" w3m
    [⟨some 0, SpawnResult.ok 9, 1⟩, ⟨none, SpawnResult.ok 10, 2⟩] (by decide)

theorem issuedStarts_append (l₁ l₂ : List Event) :
    issuedStarts (l₁ ++ l₂) = issuedStarts l₁ ++ issuedStarts l₂ := by
  simp [issuedStarts, List.filterMap_append]

theorem issuedStops_append (l₁ l₂ : List Event) :
    issuedStops (l₁ ++ l₂) = issuedStops l₁ ++ issuedStops l₂ := by
  simp [issuedStops, List.filterMap_append]

theorem issuedStarts_cons_start (n : String) (l : List Event) :
    issuedStarts (Event.issuedStart n :: l) = n :: issuedStarts l := rfl

theorem issuedStops_cons_stop (n : String) (l : List Event) :
    issuedStops (Event.issuedStop n :: l) = n :: issuedStops l := rfl

theorem delayBetween_cons_start (n : String) (l : List Event) (f : Bool) :
    delayBetweenStarts (Event.issuedStart n :: l) f = (f && delayBetweenStarts l false) := rfl

theorem delayBetween_cons_slept2 (l : List Event) (f : Bool) :
    delayBetweenStarts (Event.slept 2 :: l) f = delayBetweenStarts l true := rfl

theorem delayBetween_append_of_no_marks :
    ∀ (evs l : List Event) (f : Bool),
      issuedStarts evs = [] → (∀ s, Event.slept s ∉ evs) →
      delayBetweenStarts (evs ++ l) f = delayBetweenStarts l f := by
  intro evs
  induction evs with
  | nil => intro l f _ _; rfl
  | cons e rest ih =>
    intro l f hstart hslept
    cases e
    case issuedStart n => simp [issuedStarts] at hstart
    case slept s => exact absurd (List.mem_cons_self _ _) (hslept s)
    all_goals
      exact ih l f hstart fun s hs => hslept s (List.mem_cons_of_mem _ hs)

theorem start_all_go_issued (spawn : String → SpawnResult) (now : Nat) :
    ∀ (l : List (String × ProcessConfig)) (m : ManagerState), SyncKeys m →
      issuedStarts (start_all_go spawn now m l).2
        = (l.filter fun p => p.2.enabled).map Prod.fst := by
  intro l
  induction l with
  | nil => intro m _; rfl
  | cons p rest ih =>
    intro m hs
    rcases p with ⟨name, config⟩
    simp only [start_all_go]
    by_cases he : config.enabled = true
    · rw [if_pos he]
      rcases hst : start_process m name (spawn name) now with - | r
      · exact absurd hst (start_process_ne_none hs)
      · obtain ⟨b, m1, evs⟩ := r
        dsimp only
        obtain ⟨-, -, -, -, hist, -, -⟩ := start_process_spec hst
        have hsync1 := start_process_syncKeys hst hs
        rw [List.cons_append, issuedStarts_cons_start, issuedStarts_append,
          issuedStarts_append, hist, ih m1 hsync1]
        simp [List.filter_cons, he, issuedStarts]
    · rw [if_neg he]
      rw [ih m hs]
      have he0 : config.enabled = false := by simpa using he
      simp [List.filter_cons, he0]

theorem stop_all_go_issued (oracle : String → StopOracle) (force : Bool) :
    ∀ (l : List (String × ProcessConfig)) (m : ManagerState),
      issuedStops (stop_all_go oracle force m l).2 = l.map Prod.fst := by
  intro l
  induction l with
  | nil => intro m; rfl
  | cons p rest ih =>
    intro m
    rcases p with ⟨name, config⟩
    simp only [stop_all_go]
    rcases hsp : stop_process m name force (oracle name) with ⟨b, m1, evs⟩
    dsimp only
    obtain ⟨-, -, -, -, -, hiss, -⟩ := stop_process_spec hsp
    rw [List.cons_append, issuedStops_cons_stop, issuedStops_append, hiss, ih m1]
    rfl

theorem start_all_go_delay (spawn : String → SpawnResult) (now : Nat) :
    ∀ (l : List (String × ProcessConfig)) (m : ManagerState), SyncKeys m →
      delayBetweenStarts (start_all_go spawn now m l).2 true = true := by
  intro l
  induction l with
  | nil => intro m _; rfl
  | cons p rest ih =>
    intro m hs
    rcases p with ⟨name, config⟩
    simp only [start_all_go]
    by_cases he : config.enabled = true
    · rw [if_pos he]
      rcases hst : start_process m name (spawn name) now with - | r
      · exact absurd hst (start_process_ne_none hs)
      · obtain ⟨b, m1, evs⟩ := r
        dsimp only
        obtain ⟨-, -, -, -, hist, -, hslept⟩ := start_process_spec hst
        have hsync1 := start_process_syncKeys hst hs
        rw [List.cons_append, delayBetween_cons_start, Bool.true_and, List.append_assoc,
          delayBetween_append_of_no_marks evs _ false hist hslept,
          List.singleton_append, delayBetween_cons_slept2]
        exact ih m1 hsync1
    · rw [if_neg he]
      exact ih m hs

theorem sortAsc_pairwise (l : List (String × ProcessConfig)) :
    List.Pairwise priAsc (sortByPriorityAsc l) :=
  List.sorted_insertionSort priAsc l

theorem sortDesc_pairwise (l : List (String × ProcessConfig)) :
    List.Pairwise priDesc (sortByPriorityDesc l) :=
  List.sorted_insertionSort priDesc l

theorem syncKeys_of_forall (m : ManagerState)
    (h : ∀ p ∈ m.processes, dictMem m.process_info p.1 = true) : SyncKeys m := by
  intro k hk
  unfold dictMem at hk
  rw [List.any_eq_true] at hk
  obtain ⟨p, hp, he⟩ := hk
  have hpk : p.1 = k := of_decide_eq_true he
  rw [← hpk]
  exact h p hp

/-- C4 counterexample state: "a" enabled with priority 1, "b" disabled with
priority 2. -/
def c4m : ManagerState :=
  { processes := [("a", { name := "a", command := "c", directory := "/d", priority := 1 }),
                  ("b", { name := "b", command := "c", directory := "/d", priority := 2, enabled := false })],
    process_info := [("a", { name := "a", status := ProcessStatus.stopped }),
                     ("b", { name := "b", status := ProcessStatus.stopped })] }

/-- C4 counterexample: `stop_all` issues a stop command for the DISABLED
configuration "b" as well — it iterates over all configurations, not only the
enabled ones as the claim asserts (the enabled-only sequence would be just
["a"]). -/
theorem C4_counterexample :
    (dictGet c4m.processes "b").map ProcessConfig.enabled = some false ∧
    issuedStops (stop_all c4m false fun _ => ⟨KillResult.ok, false, false⟩).2 = ["b", "a"] := by
  decide

/-- C4 example state with priorities [3, 1, 2]. -/
def c4sortm : ManagerState :=
  { processes := [("p3", { name := "p3", command := "c", directory := "/d", priority := 3 }),
                  ("p1", { name := "p1", command := "c", directory := "/d", priority := 1 }),
                  ("p2", { name := "p2", command := "c", directory := "/d", priority := 2 })],
    process_info := [("p3", { name := "p3", status := ProcessStatus.stopped }),
                     ("p1", { name := "p1", status := ProcessStatus.stopped }),
                     ("p2", { name := "p2", status := ProcessStatus.stopped })] }

/-- C4 (corrected): `start_all` issues start commands exactly for the enabled
configurations in ascending priority order with a 2-second delay between
successive starts (in particular, priorities [3,1,2] start as 1,2,3); but
`stop_all` issues stop commands for ALL configurations — enabled or not — in
descending priority order. -/
theorem C4_bulk_order_amended :
    (∀ (m : ManagerState) (spawn : String → SpawnResult) (now : Nat), SyncKeys m →
      issuedStarts (start_all m spawn now).2
        = ((sortByPriorityAsc m.processes).filter fun p => p.2.enabled).map Prod.fst)
  ∧ (∀ l, List.Pairwise priAsc ((sortByPriorityAsc l).filter fun p => p.2.enabled))
  ∧ (∀ (m : ManagerState) (spawn : String → SpawnResult) (now : Nat), SyncKeys m →
      delayBetweenStarts (start_all m spawn now).2 true = true)
  ∧ (∀ (m : ManagerState) (force : Bool) (oracle : String → StopOracle),
      issuedStops (stop_all m force oracle).2 = (sortByPriorityDesc m.processes).map Prod.fst)
  ∧ (∀ l, List.Pairwise priDesc (sortByPriorityDesc l))
  ∧ issuedStarts (start_all c4sortm (fun _ => SpawnResult.ok 7) 0).2 = ["p1", "p2", "p3"] := by
  refine ⟨?_, ?_, ?_, ?_, ?_, ?_⟩
  · intro m spawn now hs
    exact start_all_go_issued spawn now (sortByPriorityAsc m.processes)
      { m with running := true } hs
  · intro l
    exact List.Pairwise.sublist (List.filter_sublist _) (sortAsc_pairwise l)
  · intro m spawn now hs
    exact start_all_go_delay spawn now (sortByPriorityAsc m.processes)
      { m with running := true } hs
  · intro m force oracle
    exact stop_all_go_issued oracle force (sortByPriorityDesc m.processes)
      { m with running := false }
  · intro l
    exact sortDesc_pairwise l
  · decide

/-- C4 witness: the amended start-order clause at the concrete [3,1,2] state. -/
theorem C4_witness :
    issuedStarts (start_all c4sortm (fun _ => SpawnResult.ok 7) 0).2
      = ((sortByPriorityAsc c4sortm.processes).filter fun p => p.2.enabled).map Prod.fst :=
  C4_bulk_order_amended.1 c4sortm (fun _ => SpawnResult.ok 7) 0
    (syncKeys_of_forall c4sortm (by decide))

theorem asdict_configOfDict (c : ProcessConfig) : configOfDict (asdict c) = c := rfl

theorem foldl_add_preserves_other :
    ∀ (cs : List ProcessConfig) (m : ManagerState) (k : String),
      k ∉ cs.map ProcessConfig.name →
      dictGet (cs.foldl add_process m).processes k = dictGet m.processes k := by
  intro cs
  induction cs with
  | nil => intro m k _; rfl
  | cons c rest ih =>
    intro m k hk
    rw [List.map_cons, List.mem_cons] at hk
    push_neg at hk
    rw [List.foldl_cons, ih (add_process m c) k hk.2]
    dsimp only [add_process]
    exact dictGet_set_ne _ _ _ _ hk.1

theorem foldl_add_process_get :
    ∀ (cs : List ProcessConfig) (m : ManagerState) (c : ProcessConfig),
      c ∈ cs → (cs.map ProcessConfig.name).Nodup →
      dictGet (cs.foldl add_process m).processes c.name = some c := by
  intro cs
  induction cs with
  | nil => intro m c hc _; cases hc
  | cons c₀ rest ih =>
    intro m c hc hnd
    rw [List.map_cons, List.nodup_cons] at hnd
    rw [List.foldl_cons]
    rcases List.mem_cons.mp hc with rfl | hcr
    · rw [foldl_add_preserves_other rest (add_process m c) c.name hnd.1]
      dsimp only [add_process]
      exact dictGet_set_self _ _ _
    · exact ih (add_process m c₀) c hcr hnd.2

theorem load_entries_wf :
    ∀ (es : List (String × ConfigRecord)) (m : ManagerState),
      load_entries m (es.map fun p => (p.1, RawEntry.wellFormed p.2))
        = (es.map fun p => configOfDict p.2).foldl add_process m := by
  intro es
  induction es with
  | nil => intro m; rfl
  | cons p rest ih => intro m; exact ih (add_process m (configOfDict p.2))

/-- C5 (confirmed): for a well-formed registry (distinct names, each config
keyed by its own name — both maintained by `add_process`), saving the
configuration and loading the saved records — in any order — into an arbitrary
manager reproduces every saved ProcessConfig exactly: each saved name maps to a
config equal to the saved one in all fields. -/
theorem C5_config_roundtrip (m m₀ : ManagerState) (entries : List (String × ConfigRecord))
    (hperm : entries.Perm (save_config m))
    (hnodup : (m.processes.map Prod.fst).Nodup)
    (hnames : ∀ p ∈ m.processes, p.2.name = p.1) :
    ∀ k c, (k, c) ∈ m.processes →
      dictGet (load_config m₀
          (some (entries.map fun p => (p.1, RawEntry.wellFormed p.2)))).processes k
        = some c := by
  intro k c hkc
  have hload : load_config m₀ (some (entries.map fun p => (p.1, RawEntry.wellFormed p.2)))
      = (entries.map fun p => configOfDict p.2).foldl add_process m₀ :=
    load_entries_wf entries m₀
  rw [hload]
  have hmem : c ∈ entries.map fun p => configOfDict p.2 := by
    have h1 : (k, asdict c) ∈ save_config m := List.mem_map_of_mem _ hkc
    have h2 : (k, asdict c) ∈ entries := hperm.mem_iff.mpr h1
    have h3 : configOfDict (asdict c) ∈ entries.map fun p => configOfDict p.2 :=
      List.mem_map_of_mem _ h2
    rwa [asdict_configOfDict] at h3
  have hnodup2 : ((entries.map fun p => configOfDict p.2).map ProcessConfig.name).Nodup := by
    have e1 : (entries.map fun p => configOfDict p.2).map ProcessConfig.name
        = entries.map fun p => p.2.name := by
      rw [List.map_map]
      rfl
    rw [e1]
    have e2 : (entries.map fun p => p.2.name).Perm ((save_config m).map fun p => p.2.name) :=
      hperm.map _
    have e3 : ((save_config m).map fun p => p.2.name) = m.processes.map Prod.fst := by
      unfold save_config
      rw [List.map_map]
      exact List.map_congr_left fun p hp => hnames p hp
    rw [e3] at e2
    exact e2.nodup_iff.mpr hnodup
  have hkn : c.name = k := hnames (k, c) hkc
  rw [← hkn]
  exact foldl_add_process_get _ m₀ c hmem hnodup2

/-- C5 witness config "a". -/
def w5cfgA : ProcessConfig := { name := "a", command := "ca", directory := "/d", priority := 1 }

/-- C5 witness config "b". -/
def w5cfgB : ProcessConfig := { name := "b", command := "cb", directory := "/d", priority := 2 }

/-- C5 witness registry holding the two configs. -/
def w5m : ManagerState := add_process (add_process {} w5cfgA) w5cfgB

/-- C5 witness: loading the saved records in reversed order into an empty
manager reproduces config "a" exactly. -/
theorem C5_witness :
    dictGet (load_config {}
        (some (([("b", asdict w5cfgB), ("a", asdict w5cfgA)]).map
          fun p => (p.1, RawEntry.wellFormed p.2)))).processes "a"
      = some w5cfgA :=
  C5_config_roundtrip w5m {} [("b", asdict w5cfgB), ("a", asdict w5cfgA)]
    (by decide) (by decide) (by decide) "a" w5cfgA (by decide)

/-- C7 counterexample: a config file whose first entry is malformed and whose
second entry is perfectly valid loads NOTHING — the valid entry "b" is not
registered, because the exception raised by the malformed entry aborts the
whole loop rather than skipping just that entry. -/
theorem C7_counterexample :
    (load_config {} (some [("a", RawEntry.malformed),
        ("b", RawEntry.wellFormed (asdict { name := "b", command := "run", directory := "/d" }))])).processes
      = [] := by
  decide

/-- C7 (corrected): absence of the config file is a no-op, and an all-valid
file registers each entry individually via `add_process`; but a malformed
entry ABORTS the load at that point — entries before it stay registered,
entries at and after it (valid or not) are never processed. -/
theorem C7_load_amended :
    (∀ m, load_config m none = m)
  ∧ (∀ (m : ManagerState) (pre rest : List (String × RawEntry)) (bad : String),
      (∀ p ∈ pre, p.2 ≠ RawEntry.malformed) →
      load_entries m (pre ++ (bad, RawEntry.malformed) :: rest) = load_entries m pre)
  ∧ (∀ (es : List (String × ConfigRecord)) (m : ManagerState),
      load_config m (some (es.map fun p => (p.1, RawEntry.wellFormed p.2)))
        = (es.map fun p => configOfDict p.2).foldl add_process m) := by
  refine ⟨fun m => rfl, ?_, ?_⟩
  · intro m pre rest bad
    induction pre generalizing m with
    | nil => intro _; rfl
    | cons p pre' ih =>
      intro hpre
      rcases p with ⟨n, e⟩
      cases e with
      | malformed =>
        exact absurd rfl (hpre (n, RawEntry.malformed) (List.mem_cons_self _ _))
      | wellFormed r =>
        exact ih (add_process m (configOfDict r))
          fun p hp => hpre p (List.mem_cons_of_mem _ hp)
  · intro es m
    exact load_entries_wf es m

/-- C7 witness: a malformed middle entry keeps the prefix and drops the rest. -/
theorem C7_witness :
    load_entries {}
        ([("g", RawEntry.wellFormed (asdict w5cfgA))]
          ++ ("x", RawEntry.malformed) :: [("h", RawEntry.wellFormed (asdict w5cfgB))])
      = load_entries {} [("g", RawEntry.wellFormed (asdict w5cfgA))] :=
  C7_load_amended.2.1 {} [("g", RawEntry.wellFormed (asdict w5cfgA))]
    [("h", RawEntry.wellFormed (asdict w5cfgB))] "x" (by decide)

end ProcSup
